import Mathlib

/-
  Verification development for the joshua streaming ASR pipeline.

  Shallow embedding of:
  - steps/asr/kyutai_asr_step.py : ExponentialMovingAverage, MoshiASR
    (on_message, _enter_flushing_mode, _send_audio, _process_audio_chunk),
    KyutaiASRStep._handle_input_message
  - pipeline_framework.py : PipelineStep mailboxes (asyncio.Queue)
  - backend/messages/base_message.py : MessageType
  - class construction semantics for the shipped step subclasses.

  Machine floats are modelled as real numbers; wall-clock timestamps are
  threaded as explicit parameters (a clock function for per-packet
  time.time() calls).
-/

set_option maxHeartbeats 1000000

namespace Joshua

/-! ### Constants (kyutai_asr_step.py, module level) -/

def SAMPLE_RATE : ℕ := 24000

def SAMPLES_PER_FRAME : ℕ := 1920

/-- FRAME_TIME_SEC = SAMPLES_PER_FRAME / SAMPLE_RATE (a float in the source). -/
noncomputable def FRAME_TIME_SEC : ℝ := (SAMPLES_PER_FRAME : ℝ) / (SAMPLE_RATE : ℝ)

noncomputable def PAUSE_THRESHOLD : ℝ := 0.9

noncomputable def VAD_THRESHOLD : ℝ := 0.8

def FLUSH_LENGTH : ℕ := 12

/-! ### ExponentialMovingAverage (kyutai_asr_step.py lines 40-54) -/

structure ExponentialMovingAverage where
  attack_time : ℝ
  release_time : ℝ
  value : ℝ

/-- alpha = 1 - math.exp(-dt / tau * math.log(2)), as computed in update. -/
noncomputable def emaAlpha (dt tau : ℝ) : ℝ :=
  1 - Real.exp (-dt / tau * Real.log 2)

/-- ExponentialMovingAverage.update: pick the attack constant when the new
sample is above the current value, the release constant otherwise, then blend. -/
noncomputable def ExponentialMovingAverage.update
    (e : ExponentialMovingAverage) (dt new_value : ℝ) : ExponentialMovingAverage :=
  let alpha := if new_value > e.value then emaAlpha dt e.attack_time
               else emaAlpha dt e.release_time
  { e with value := (1 - alpha) * e.value + alpha * new_value }

/-- The spec's blend factor written with a power of two: 1 - 2^(-dt/tau). -/
noncomputable def alphaSpec (dt tau : ℝ) : ℝ :=
  1 - (2 : ℝ) ^ (-(dt / tau))

/-- Repeated updates with a fixed elapsed time and a constant target sample. -/
noncomputable def iterEMA (e : ExponentialMovingAverage) (dt v : ℝ) : ℕ → ExponentialMovingAverage
  | 0 => e
  | n + 1 => (iterEMA e dt v n).update dt v

theorem emaAlpha_eq_alphaSpec (dt tau : ℝ) : emaAlpha dt tau = alphaSpec dt tau := by
  unfold emaAlpha alphaSpec
  rw [Real.rpow_def_of_pos (by norm_num : (0:ℝ) < 2)]
  ring_nf

theorem emaAlpha_pos (dt tau : ℝ) (hdt : 0 < dt) (htau : 0 < tau) : 0 < emaAlpha dt tau := by
  unfold emaAlpha
  have hx : -dt / tau * Real.log 2 < 0 := by
    apply mul_neg_of_neg_of_pos
    · exact div_neg_of_neg_of_pos (neg_neg_of_pos hdt) htau
    · exact Real.log_pos (by norm_num)
  have := Real.exp_lt_one_iff.mpr hx
  linarith

theorem emaAlpha_lt_one (dt tau : ℝ) : emaAlpha dt tau < 1 := by
  unfold emaAlpha
  have := Real.exp_pos (-dt / tau * Real.log 2)
  linarith

/-- One update never crosses the target from above. -/
theorem update_from_above (e : ExponentialMovingAverage) (dt v : ℝ)
    (hdt : 0 < dt) (hr : 0 < e.release_time) (h : v ≤ e.value) :
    v ≤ (e.update dt v).value ∧ (e.update dt v).value ≤ e.value := by
  have ha0 : 0 < emaAlpha dt e.release_time := emaAlpha_pos _ _ hdt hr
  have ha1 : emaAlpha dt e.release_time < 1 := emaAlpha_lt_one _ _
  unfold ExponentialMovingAverage.update
  rw [if_neg (not_lt.mpr h)]
  dsimp only
  have h1 : 0 ≤ (1 - emaAlpha dt e.release_time) * (e.value - v) :=
    mul_nonneg (by linarith) (by linarith)
  have h2 : 0 ≤ emaAlpha dt e.release_time * (e.value - v) :=
    mul_nonneg (by linarith) (by linarith)
  constructor <;> nlinarith

/-- One update never crosses the target from below. -/
theorem update_from_below (e : ExponentialMovingAverage) (dt v : ℝ)
    (hdt : 0 < dt) (ha : 0 < e.attack_time) (hr : 0 < e.release_time) (h : e.value ≤ v) :
    e.value ≤ (e.update dt v).value ∧ (e.update dt v).value ≤ v := by
  unfold ExponentialMovingAverage.update
  by_cases hb : e.value < v
  · rw [if_pos hb]
    dsimp only
    have ha0 : 0 < emaAlpha dt e.attack_time := emaAlpha_pos _ _ hdt ha
    have ha1 : emaAlpha dt e.attack_time < 1 := emaAlpha_lt_one _ _
    have h1 : 0 ≤ (1 - emaAlpha dt e.attack_time) * (v - e.value) :=
      mul_nonneg (by linarith) (by linarith)
    have h2 : 0 ≤ emaAlpha dt e.attack_time * (v - e.value) :=
      mul_nonneg (by linarith) (by linarith)
    constructor <;> nlinarith
  · rw [if_neg hb]
    dsimp only
    have hv : e.value = v := le_antisymm h (not_lt.mp hb)
    rw [hv]
    constructor <;> nlinarith

theorem iterEMA_attack_time (e : ExponentialMovingAverage) (dt v : ℝ) (n : ℕ) :
    (iterEMA e dt v n).attack_time = e.attack_time := by
  induction n with
  | zero => rfl
  | succ n ih => simp [iterEMA, ExponentialMovingAverage.update, ih]

theorem iterEMA_release_time (e : ExponentialMovingAverage) (dt v : ℝ) (n : ℕ) :
    (iterEMA e dt v n).release_time = e.release_time := by
  induction n with
  | zero => rfl
  | succ n ih => simp [iterEMA, ExponentialMovingAverage.update, ih]

theorem iterEMA_above (e : ExponentialMovingAverage) (dt v : ℝ)
    (hdt : 0 < dt) (hr : 0 < e.release_time) (h : v ≤ e.value) :
    ∀ n, v ≤ (iterEMA e dt v n).value ∧ (iterEMA e dt v (n + 1)).value ≤ (iterEMA e dt v n).value := by
  have key : ∀ n, v ≤ (iterEMA e dt v n).value := by
    intro n
    induction n with
    | zero => exact h
    | succ n ih =>
        have := update_from_above (iterEMA e dt v n) dt v hdt (by rwa [iterEMA_release_time]) ih
        exact this.1
  intro n
  refine ⟨key n, ?_⟩
  have := update_from_above (iterEMA e dt v n) dt v hdt (by rwa [iterEMA_release_time]) (key n)
  exact this.2

theorem iterEMA_below (e : ExponentialMovingAverage) (dt v : ℝ)
    (hdt : 0 < dt) (ha : 0 < e.attack_time) (hr : 0 < e.release_time) (h : e.value ≤ v) :
    ∀ n, (iterEMA e dt v n).value ≤ v ∧ (iterEMA e dt v n).value ≤ (iterEMA e dt v (n + 1)).value := by
  have key : ∀ n, (iterEMA e dt v n).value ≤ v := by
    intro n
    induction n with
    | zero => exact h
    | succ n ih =>
        have := update_from_below (iterEMA e dt v n) dt v hdt
          (by rwa [iterEMA_attack_time]) (by rwa [iterEMA_release_time]) ih
        exact this.2
  intro n
  refine ⟨key n, ?_⟩
  have := update_from_below (iterEMA e dt v n) dt v hdt
    (by rwa [iterEMA_attack_time]) (by rwa [iterEMA_release_time]) (key n)
  exact this.1

/-- Closed form above the target: the gap to the target shrinks geometrically. -/
theorem iterEMA_above_closed (e : ExponentialMovingAverage) (dt v : ℝ)
    (hdt : 0 < dt) (hr : 0 < e.release_time) (h : v ≤ e.value) :
    ∀ n, (iterEMA e dt v n).value - v
      = (1 - emaAlpha dt e.release_time) ^ n * (e.value - v) := by
  intro n
  induction n with
  | zero => simp [iterEMA]
  | succ n ih =>
      have hb : v ≤ (iterEMA e dt v n).value := (iterEMA_above e dt v hdt hr h n).1
      show ((iterEMA e dt v n).update dt v).value - v = _
      unfold ExponentialMovingAverage.update
      rw [if_neg (not_lt.mpr hb), iterEMA_release_time]
      dsimp only
      rw [pow_succ]
      linear_combination (1 - emaAlpha dt e.release_time) * ih

/-- Closed form below the target. -/
theorem iterEMA_below_closed (e : ExponentialMovingAverage) (dt v : ℝ)
    (hdt : 0 < dt) (ha : 0 < e.attack_time) (hr : 0 < e.release_time) (h : e.value ≤ v) :
    ∀ n, (iterEMA e dt v n).value - v
      = (1 - emaAlpha dt e.attack_time) ^ n * (e.value - v) := by
  intro n
  induction n with
  | zero => simp [iterEMA]
  | succ n ih =>
      have hb : (iterEMA e dt v n).value ≤ v := (iterEMA_below e dt v hdt ha hr h n).1
      show ((iterEMA e dt v n).update dt v).value - v = _
      unfold ExponentialMovingAverage.update
      by_cases hc : (iterEMA e dt v n).value < v
      · rw [if_pos hc, iterEMA_attack_time]
        dsimp only
        rw [pow_succ]
        linear_combination (1 - emaAlpha dt e.attack_time) * ih
      · have hv : (iterEMA e dt v n).value = v := le_antisymm hb (not_lt.mp hc)
        rw [if_neg hc]
        dsimp only
        have hz : (1 - emaAlpha dt e.attack_time) ^ n * (e.value - v) = 0 := by
          rw [← ih, hv]; ring
        have hz1 : (1 - emaAlpha dt e.attack_time) ^ (n + 1) * (e.value - v) = 0 := by
          rw [pow_succ, mul_comm ((1 - emaAlpha dt e.attack_time) ^ n) _, mul_assoc, hz, mul_zero]
        rw [hz1, hv]
        ring

theorem iterEMA_tendsto (e : ExponentialMovingAverage) (dt v : ℝ)
    (hdt : 0 < dt) (ha : 0 < e.attack_time) (hr : 0 < e.release_time) :
    Filter.Tendsto (fun n => (iterEMA e dt v n).value) Filter.atTop (nhds v) := by
  rcases le_total v e.value with h | h
  · have hc : ∀ n, (iterEMA e dt v n).value
        = v + (1 - emaAlpha dt e.release_time) ^ n * (e.value - v) := by
      intro n; have := iterEMA_above_closed e dt v hdt hr h n; linarith
    have h0 : 0 ≤ 1 - emaAlpha dt e.release_time := by
      have := emaAlpha_lt_one dt e.release_time; linarith
    have h1 : 1 - emaAlpha dt e.release_time < 1 := by
      have := emaAlpha_pos dt e.release_time hdt hr; linarith
    have hpow : Filter.Tendsto (fun n : ℕ => (1 - emaAlpha dt e.release_time) ^ n)
        Filter.atTop (nhds 0) := tendsto_pow_atTop_nhds_zero_of_lt_one h0 h1
    have := (hpow.mul_const (e.value - v)).const_add v
    simp only [zero_mul, add_zero] at this
    exact (funext hc : (fun n => (iterEMA e dt v n).value) = _) ▸ this
  · have hc : ∀ n, (iterEMA e dt v n).value
        = v + (1 - emaAlpha dt e.attack_time) ^ n * (e.value - v) := by
      intro n; have := iterEMA_below_closed e dt v hdt ha hr h n; linarith
    have h0 : 0 ≤ 1 - emaAlpha dt e.attack_time := by
      have := emaAlpha_lt_one dt e.attack_time; linarith
    have h1 : 1 - emaAlpha dt e.attack_time < 1 := by
      have := emaAlpha_pos dt e.attack_time hdt ha; linarith
    have hpow : Filter.Tendsto (fun n : ℕ => (1 - emaAlpha dt e.attack_time) ^ n)
        Filter.atTop (nhds 0) := tendsto_pow_atTop_nhds_zero_of_lt_one h0 h1
    have := (hpow.mul_const (e.value - v)).const_add v
    simp only [zero_mul, add_zero] at this
    exact (funext hc : (fun n => (iterEMA e dt v n).value) = _) ▸ this

/-! ### MoshiASR session state (kyutai_asr_step.py lines 116-386)

One MoshiASR instance per KyutaiASRStep; all mutable state lives in
instance attributes. `connected` models `self._connected and self.ws`;
`has_output` models `self.output_queue` being set. -/

structure MoshiState where
  connected : Bool
  stream_active : Bool
  is_speaking : Bool
  last_word_time : ℝ
  pause_prediction : ExponentialMovingAverage
  steps_to_wait : ℕ
  pause_threshold : ℝ
  vad_threshold : ℝ
  flushing_mode : Bool
  silence_packets_count : ℕ
  flushing_limit : ℕ
  packets_sent : ℕ
  packets_received : ℕ
  has_output : Bool

/-- MoshiASR.__init__ (wall-clock timestamp fields are not modelled). -/
noncomputable def moshiInitState : MoshiState where
  connected := false
  stream_active := false
  is_speaking := false
  last_word_time := 0
  pause_prediction := ⟨0.01, 0.01, 1.0⟩
  steps_to_wait := 10
  pause_threshold := PAUSE_THRESHOLD
  vad_threshold := VAD_THRESHOLD
  flushing_mode := false
  silence_packets_count := FLUSH_LENGTH
  flushing_limit := 0
  packets_sent := 0
  packets_received := 0
  has_output := false

/-- Output events (ASREvent subclasses). StartEvent and EndEvent carry a
reason in their data dict; TextEvent carries the token. The wall-clock
timestamp attribute is not modelled. -/
inductive ASREvent
  | startEv (reason : String)
  | textEv (text : String)
  | endEv (reason : String)
deriving DecidableEq

/-- The data payload attached to each event by __post_init__. -/
inductive EventData
  | reasonPayload (reason : String)
  | textPayload (text : String)
deriving DecidableEq

def ASREvent.payload : ASREvent → EventData
  | .startEv r => .reasonPayload r
  | .textEv t => .textPayload t
  | .endEv r => .reasonPayload r

def isStart : ASREvent → Bool
  | .startEv _ => true
  | _ => false

def isEnd : ASREvent → Bool
  | .endEv _ => true
  | _ => false

def isText : ASREvent → Bool
  | .textEv _ => true
  | _ => false

/-- Decoded inbound websocket messages (the Event taxonomy). -/
inductive WireMessage
  | ready
  | word (text : String) (start_time : ℝ)
  | endWord (stop_time : ℝ)
  | marker (id : ℤ)
  | step (step_idx : ℕ) (prs : List ℝ)
  | unknown

/-- _enqueue_event: enqueue only when an output queue is set. -/
def emitEvent (s : MoshiState) (e : ASREvent) : List ASREvent :=
  if s.has_output then [e] else []

/-- An audio packet handed to the websocket by _send_audio. -/
structure SentFrame where
  pcm : List ℝ
  timestamp : ℝ

/-- _send_audio: drop the packet when not connected, otherwise send it and
bump packets_sent. -/
def sendAudio (s : MoshiState) (pcm : List ℝ) (timestamp : ℝ) : MoshiState × List SentFrame :=
  if s.connected then
    ({ s with packets_sent := s.packets_sent + 1 }, [⟨pcm, timestamp⟩])
  else (s, [])

/-- The silence-sending loop of _enter_flushing_mode; `clock i` is the
time.time() value observed at loop iteration i. -/
def sendSilenceLoop (clock : ℕ → ℝ) (silence : List ℝ) :
    MoshiState → ℕ → ℕ → MoshiState × List SentFrame
  | s, _, 0 => (s, [])
  | s, i, n + 1 =>
      let r := sendAudio s silence (clock i)
      let rest := sendSilenceLoop clock silence r.1 (i + 1) n
      (rest.1, r.2 ++ rest.2)

/-- _enter_flushing_mode: set the flag, fix the flush target from
packets_sent, then send silence_packets_count zero-sample frames. -/
def enterFlushingMode (s : MoshiState) (clock : ℕ → ℝ) : MoshiState × List SentFrame :=
  let s0 := { s with flushing_mode := true }
  let silence : List ℝ := List.replicate SAMPLES_PER_FRAME 0
  let s1 := { s0 with flushing_limit := s0.packets_sent + s0.silence_packets_count }
  sendSilenceLoop clock silence s1 0 s1.silence_packets_count

/-- Result of processing one inbound message. -/
structure MsgOut where
  state : MoshiState
  events : List ASREvent
  frames : List SentFrame

/-- The trailing flush-completion check of on_message. -/
def flushCheck (s : MoshiState) (events : List ASREvent) (frames : List SentFrame) : MsgOut :=
  if s.flushing_mode then
    if s.flushing_limit = s.packets_received then
      let s' := { s with is_speaking := false, flushing_mode := false }
      ⟨s', events ++ emitEvent s' (.endEv "pause_detected"), frames⟩
    else ⟨s, events, frames⟩
  else ⟨s, events, frames⟩

/-- MoshiASR.on_message, assuming the inbound frame decodes. -/
noncomputable def onMessage (s : MoshiState) (m : WireMessage) (clock : ℕ → ℝ) : MsgOut :=
  match m with
  | .ready => ⟨{ s with stream_active := true }, [], []⟩
  | .word text start_time =>
      let s1 := if s.flushing_mode then { s with flushing_mode := false } else s
      let out1 := if s.flushing_mode ∧ s.is_speaking = false
                  then emitEvent s1 (.startEv "voice_detected") else []
      let s2 := { s1 with pause_prediction := { s1.pause_prediction with value := 0 } }
      let out2 := out1 ++ (if s2.has_output then [ASREvent.textEv text] else [])
      let s3 := { s2 with last_word_time := start_time, is_speaking := true }
      flushCheck s3 out2 []
  | .endWord _ => flushCheck s [] []
  | .marker _ => flushCheck s [] []
  | .step _ prs =>
      let s1 := { s with packets_received := s.packets_received + 1 }
      if 3 ≤ prs.length then
        if 0 < s1.steps_to_wait then
          ⟨{ s1 with steps_to_wait := s1.steps_to_wait - 1 }, [], []⟩
        else
          let s2 := { s1 with
            pause_prediction := s1.pause_prediction.update FRAME_TIME_SEC (prs.getD 2 0) }
          if s2.pause_threshold < s2.pause_prediction.value ∧ s2.is_speaking = true then
            if s2.flushing_mode = false then
              let r := enterFlushingMode s2 clock
              flushCheck r.1 [] r.2
            else flushCheck s2 [] []
          else if s2.pause_prediction.value < s2.vad_threshold then
            let s3 := { s2 with pause_prediction := { s2.pause_prediction with value := 0 } }
            let s4 := if s3.flushing_mode then { s3 with flushing_mode := false } else s3
            let out := if s4.is_speaking = false
                       then emitEvent s4 (.startEv "voice_detected") else []
            flushCheck s4 out []
          else flushCheck s2 [] []
      else flushCheck s1 [] []
  | .unknown => flushCheck s [] []

/-- Process a list of inbound messages in order, concatenating outputs. -/
noncomputable def runMessages (s : MoshiState) (ms : List WireMessage) (clock : ℕ → ℝ) : MsgOut :=
  match ms with
  | [] => ⟨s, [], []⟩
  | m :: rest =>
      let r := onMessage s m clock
      let r' := runMessages r.state rest clock
      ⟨r'.state, r.events ++ r'.events, r.frames ++ r'.frames⟩

/-! ### Characterization lemmas for the session state machine -/

theorem emaAlpha_frame : emaAlpha FRAME_TIME_SEC (0.01 : ℝ) = 255 / 256 := by
  unfold emaAlpha FRAME_TIME_SEC SAMPLES_PER_FRAME SAMPLE_RATE
  have h8 : -(((1920 : ℕ) : ℝ) / ((24000 : ℕ) : ℝ)) / (0.01 : ℝ) * Real.log 2
      = Real.log ((2 : ℝ) ^ (-8 : ℤ)) := by
    rw [Real.log_zpow]
    push_cast
    ring
  rw [h8, Real.exp_log (by positivity)]
  norm_num

theorem update_value_of_attack_eq_release (e : ExponentialMovingAverage) (dt v : ℝ)
    (h : e.attack_time = e.release_time) :
    (e.update dt v).value
      = (1 - emaAlpha dt e.release_time) * e.value + emaAlpha dt e.release_time * v := by
  unfold ExponentialMovingAverage.update
  split_ifs with hc <;> dsimp only <;> rw [h]

theorem update_self (e : ExponentialMovingAverage) (dt : ℝ) : e.update dt e.value = e := by
  obtain ⟨a, r, v⟩ := e
  unfold ExponentialMovingAverage.update
  rw [if_neg (lt_irrefl v)]
  dsimp only
  congr 1
  ring

theorem onMessage_word_eq (s : MoshiState) (text : String) (t : ℝ) (clock : ℕ → ℝ) :
    onMessage s (.word text t) clock =
      ⟨{ s with flushing_mode := false,
                pause_prediction := { s.pause_prediction with value := 0 },
                last_word_time := t, is_speaking := true },
        (if s.flushing_mode = true ∧ s.is_speaking = false
         then emitEvent s (.startEv "voice_detected") else [])
          ++ (if s.has_output then [ASREvent.textEv text] else []), []⟩ := by
  obtain ⟨c, sa, sp, lw, pp, w, pt, vt, f, spc, fl, ps, pr, ho⟩ := s
  simp only [onMessage, emitEvent, flushCheck]
  cases f <;> cases sp <;> cases ho <;> simp

theorem onMessage_step_warmup (s : MoshiState) (k : ℕ) (prs : List ℝ) (clock : ℕ → ℝ)
    (hlen : 3 ≤ prs.length) (hw : 0 < s.steps_to_wait) :
    onMessage s (.step k prs) clock =
      ⟨{ s with packets_received := s.packets_received + 1,
                steps_to_wait := s.steps_to_wait - 1 }, [], []⟩ := by
  simp only [onMessage]
  rw [if_pos hlen, if_pos hw]

theorem sendSilenceLoop_eq (clock : ℕ → ℝ) (silence : List ℝ) :
    ∀ (n : ℕ) (s : MoshiState) (i : ℕ), s.connected = true →
      sendSilenceLoop clock silence s i n =
        ({ s with packets_sent := s.packets_sent + n },
          (List.range n).map (fun j => ⟨silence, clock (i + j)⟩)) := by
  intro n
  induction n with
  | zero => intro s i hc; simp [sendSilenceLoop]
  | succ n ih =>
      intro s i hc
      simp only [sendSilenceLoop, sendAudio, if_pos hc]
      rw [ih { s with packets_sent := s.packets_sent + 1 } (i + 1) hc]
      simp only [List.range_succ_eq_map, List.map_cons, List.map_map, Prod.mk.injEq]
      have harith : s.packets_sent + 1 + n = s.packets_sent + (n + 1) := by omega
      refine ⟨by rw [harith], ?_⟩
      simp only [Nat.add_zero, List.singleton_append, List.cons.injEq, true_and]
      apply List.map_congr_left
      intro j _
      simp only [Function.comp_apply]
      congr 2
      omega

theorem enterFlushingMode_eq (s : MoshiState) (clock : ℕ → ℝ) (hc : s.connected = true) :
    enterFlushingMode s clock =
      ({ s with flushing_mode := true,
                flushing_limit := s.packets_sent + s.silence_packets_count,
                packets_sent := s.packets_sent + s.silence_packets_count },
        (List.range s.silence_packets_count).map
          (fun j => ⟨List.replicate SAMPLES_PER_FRAME 0, clock j⟩)) := by
  unfold enterFlushingMode
  dsimp only
  rw [sendSilenceLoop_eq clock (List.replicate SAMPLES_PER_FRAME 0) s.silence_packets_count
    { s with flushing_mode := true,
             flushing_limit := s.packets_sent + s.silence_packets_count } 0 hc]
  simp

theorem flushCheck_not_flushing (s : MoshiState) (events : List ASREvent)
    (frames : List SentFrame) (h : s.flushing_mode = false) :
    flushCheck s events frames = ⟨s, events, frames⟩ := by
  simp [flushCheck, h]

theorem flushCheck_flushing_ne (s : MoshiState) (events : List ASREvent)
    (frames : List SentFrame) (h : s.flushing_mode = true)
    (hne : s.flushing_limit ≠ s.packets_received) :
    flushCheck s events frames = ⟨s, events, frames⟩ := by
  simp [flushCheck, h, hne]

theorem flushCheck_flushing_done (s : MoshiState) (events : List ASREvent)
    (frames : List SentFrame) (h : s.flushing_mode = true)
    (heq : s.flushing_limit = s.packets_received) :
    flushCheck s events frames =
      ⟨{ s with is_speaking := false, flushing_mode := false },
        events ++ emitEvent { s with is_speaking := false, flushing_mode := false }
          (.endEv "pause_detected"), frames⟩ := by
  simp [flushCheck, h, heq]

theorem onMessage_step_enter (s : MoshiState) (k : ℕ) (prs : List ℝ) (clock : ℕ → ℝ)
    (hlen : 3 ≤ prs.length) (hw : s.steps_to_wait = 0)
    (hsp : s.is_speaking = true) (hnf : s.flushing_mode = false) (hc : s.connected = true)
    (hth : s.pause_threshold < (s.pause_prediction.update FRAME_TIME_SEC (prs.getD 2 0)).value) :
    onMessage s (.step k prs) clock =
      flushCheck
        { s with packets_received := s.packets_received + 1,
                 pause_prediction := s.pause_prediction.update FRAME_TIME_SEC (prs.getD 2 0),
                 flushing_mode := true,
                 flushing_limit := s.packets_sent + s.silence_packets_count,
                 packets_sent := s.packets_sent + s.silence_packets_count }
        []
        ((List.range s.silence_packets_count).map
          (fun j => ⟨List.replicate SAMPLES_PER_FRAME 0, clock j⟩)) := by
  simp only [onMessage]
  rw [if_pos hlen, if_neg (by omega : ¬ 0 < s.steps_to_wait)]
  rw [if_pos (show _ ∧ _ from ⟨hth, hsp⟩), if_pos hnf]
  rw [enterFlushingMode_eq
    { s with packets_received := s.packets_received + 1,
             pause_prediction := s.pause_prediction.update FRAME_TIME_SEC (prs.getD 2 0) }
    clock hc]

theorem onMessage_step_flushing (s : MoshiState) (k : ℕ) (prs : List ℝ) (clock : ℕ → ℝ)
    (hlen : 3 ≤ prs.length) (hw : s.steps_to_wait = 0)
    (hsp : s.is_speaking = true) (hf : s.flushing_mode = true)
    (hth : s.pause_threshold < (s.pause_prediction.update FRAME_TIME_SEC (prs.getD 2 0)).value) :
    onMessage s (.step k prs) clock =
      flushCheck
        { s with packets_received := s.packets_received + 1,
                 pause_prediction := s.pause_prediction.update FRAME_TIME_SEC (prs.getD 2 0) }
        [] [] := by
  simp only [onMessage]
  rw [if_pos hlen, if_neg (by omega : ¬ 0 < s.steps_to_wait)]
  rw [if_pos (show _ ∧ _ from ⟨hth, hsp⟩), if_neg (by simp [hf])]

theorem onMessage_step_vad (s : MoshiState) (k : ℕ) (prs : List ℝ) (clock : ℕ → ℝ)
    (hlen : 3 ≤ prs.length) (hw : s.steps_to_wait = 0)
    (hnot : ¬ (s.pause_threshold < (s.pause_prediction.update FRAME_TIME_SEC (prs.getD 2 0)).value
               ∧ s.is_speaking = true))
    (hlow : (s.pause_prediction.update FRAME_TIME_SEC (prs.getD 2 0)).value < s.vad_threshold) :
    onMessage s (.step k prs) clock =
      flushCheck
        { s with packets_received := s.packets_received + 1,
                 pause_prediction :=
                   { s.pause_prediction.update FRAME_TIME_SEC (prs.getD 2 0) with value := 0 },
                 flushing_mode := false }
        (if s.is_speaking = false then emitEvent s (.startEv "voice_detected") else []) [] := by
  obtain ⟨c, sa, sp, lw, pp, w, pt, vt, f, spc, fl, ps, pr, ho⟩ := s
  simp only at hw
  subst hw
  simp only [onMessage]
  rw [if_pos hlen, if_neg (by omega : ¬ (0:ℕ) < 0)]
  rw [if_neg hnot, if_pos hlow]
  cases f <;> rfl

theorem onMessage_step_mid (s : MoshiState) (k : ℕ) (prs : List ℝ) (clock : ℕ → ℝ)
    (hlen : 3 ≤ prs.length) (hw : s.steps_to_wait = 0)
    (hnot : ¬ (s.pause_threshold < (s.pause_prediction.update FRAME_TIME_SEC (prs.getD 2 0)).value
               ∧ s.is_speaking = true))
    (hnotlow : ¬ (s.pause_prediction.update FRAME_TIME_SEC (prs.getD 2 0)).value < s.vad_threshold) :
    onMessage s (.step k prs) clock =
      flushCheck
        { s with packets_received := s.packets_received + 1,
                 pause_prediction := s.pause_prediction.update FRAME_TIME_SEC (prs.getD 2 0) }
        [] [] := by
  simp only [onMessage]
  rw [if_pos hlen, if_neg (by omega : ¬ 0 < s.steps_to_wait)]
  rw [if_neg hnot, if_neg hnotlow]

theorem runMessages_nil (s : MoshiState) (clock : ℕ → ℝ) :
    runMessages s [] clock = ⟨s, [], []⟩ := rfl

theorem runMessages_cons (s : MoshiState) (m : WireMessage) (ms : List WireMessage)
    (clock : ℕ → ℝ) :
    runMessages s (m :: ms) clock =
      ⟨(runMessages (onMessage s m clock).state ms clock).state,
        (onMessage s m clock).events ++ (runMessages (onMessage s m clock).state ms clock).events,
        (onMessage s m clock).frames ++ (runMessages (onMessage s m clock).state ms clock).frames⟩
    := rfl

theorem runMessages_append (ms1 ms2 : List WireMessage) :
    ∀ (s : MoshiState) (clock : ℕ → ℝ),
      runMessages s (ms1 ++ ms2) clock =
        ⟨(runMessages (runMessages s ms1 clock).state ms2 clock).state,
          (runMessages s ms1 clock).events
            ++ (runMessages (runMessages s ms1 clock).state ms2 clock).events,
          (runMessages s ms1 clock).frames
            ++ (runMessages (runMessages s ms1 clock).state ms2 clock).frames⟩ := by
  induction ms1 with
  | nil => intro s clock; rfl
  | cons m rest ih =>
      intro s clock
      rw [List.cons_append, runMessages_cons, ih (onMessage s m clock).state clock,
        runMessages_cons]
      simp [List.append_assoc]

/-- During warm-up, Step events only count packets and decrement the counter. -/
theorem runMessages_warmup (k : ℕ) (prs : List ℝ) (clock : ℕ → ℝ) (hlen : 3 ≤ prs.length) :
    ∀ (n : ℕ) (s : MoshiState), n ≤ s.steps_to_wait →
      runMessages s (List.replicate n (.step k prs)) clock =
        ⟨{ s with packets_received := s.packets_received + n,
                  steps_to_wait := s.steps_to_wait - n }, [], []⟩ := by
  intro n
  induction n with
  | zero => intro s _; simp [runMessages]
  | succ n ih =>
      intro s hn
      rw [List.replicate_succ, runMessages_cons,
        onMessage_step_warmup s k prs clock hlen (by omega)]
      rw [ih { s with packets_received := s.packets_received + 1,
                      steps_to_wait := s.steps_to_wait - 1 } (by simp; omega)]
      have h1 : s.packets_received + 1 + n = s.packets_received + (n + 1) := by omega
      have h2 : s.steps_to_wait - 1 - n = s.steps_to_wait - (n + 1) := by omega
      dsimp only
      rw [h1, h2]
      simp

/-- The default instance uses attack_time = release_time = 0.01, so one frame
update blends with the exact factor 255/256 in either branch. -/
theorem update_default (v nv : ℝ) :
    (ExponentialMovingAverage.mk 0.01 0.01 v).update FRAME_TIME_SEC nv
      = ⟨0.01, 0.01, (1 - 255 / 256) * v + 255 / 256 * nv⟩ := by
  unfold ExponentialMovingAverage.update
  dsimp only
  rw [ite_self, emaAlpha_frame]

theorem flushCheck_countP_start (s : MoshiState) (ev : List ASREvent)
    (fr : List SentFrame) :
    ((flushCheck s ev fr).events).countP isStart = ev.countP isStart := by
  unfold flushCheck emitEvent
  split_ifs <;> simp [isStart]

theorem flushCheck_mem_events (s : MoshiState) (ev : List ASREvent)
    (fr : List SentFrame) (e : ASREvent) (he : e ∈ (flushCheck s ev fr).events) :
    e ∈ ev ∨ e = .endEv "pause_detected" := by
  unfold flushCheck emitEvent at he
  split_ifs at he <;> simp_all <;> tauto

/-- While the speaking flag is set, no inbound message emits a START. -/
theorem no_start_when_speaking (s : MoshiState) (m : WireMessage) (clock : ℕ → ℝ)
    (hsp : s.is_speaking = true) :
    (onMessage s m clock).events.countP isStart = 0 := by
  cases m with
  | ready => simp [onMessage]
  | word text t =>
      rw [onMessage_word_eq]
      cases ho : s.has_output <;> simp [hsp, ho, isStart]
  | endWord t =>
      rw [show onMessage s (.endWord t) clock = flushCheck s [] [] from rfl,
        flushCheck_countP_start]
      simp
  | marker i =>
      rw [show onMessage s (.marker i) clock = flushCheck s [] [] from rfl,
        flushCheck_countP_start]
      simp
  | unknown =>
      rw [show onMessage s .unknown clock = flushCheck s [] [] from rfl,
        flushCheck_countP_start]
      simp
  | step k prs =>
      simp only [onMessage]
      split_ifs <;> simp_all [flushCheck_countP_start, emitEvent, isStart]

/-- A connected, stream-active, queue-wired idle session; EMA at its reset
value 1, warm-up already elapsed. -/
noncomputable def idleDemoState : MoshiState where
  connected := true
  stream_active := true
  is_speaking := false
  last_word_time := 0
  pause_prediction := ⟨0.01, 0.01, 1⟩
  steps_to_wait := 0
  pause_threshold := PAUSE_THRESHOLD
  vad_threshold := VAD_THRESHOLD
  flushing_mode := false
  silence_packets_count := FLUSH_LENGTH
  flushing_limit := 0
  packets_sent := 0
  packets_received := 0
  has_output := true

/-- C1. A Word in the Idle state marks the session speaking but emits only the
TEXT message, and no message ever emits a START while speaking is already set. -/
theorem word_in_idle_and_start_uniqueness :
    ∀ (s : MoshiState) (text : String) (t : ℝ) (clock : ℕ → ℝ) (m : WireMessage),
      (s.is_speaking = false → s.flushing_mode = false → s.has_output = true →
        ((onMessage s (.word text t) clock).state.is_speaking = true
          ∧ (onMessage s (.word text t) clock).events = [ASREvent.textEv text]))
      ∧ (s.is_speaking = true → (onMessage s m clock).events.countP isStart = 0) := by
  intro s text t clock m
  constructor
  · intro hs hf ho
    rw [onMessage_word_eq]
    simp [hs, hf, ho]
  · intro hs
    exact no_start_when_speaking s m clock hs

/-- C1. Concrete run refuting the claim as stated: a Word received in Idle
emits zero START messages (the claim demands exactly one). -/
theorem word_in_idle_counterexample :
    (onMessage idleDemoState (.word "bonjour" (1 / 2)) (fun _ => 0)).events.countP isStart = 0
    ∧ (onMessage idleDemoState (.word "bonjour" (1 / 2)) (fun _ => 0)).events
        = [ASREvent.textEv "bonjour"]
    ∧ (onMessage idleDemoState (.word "bonjour" (1 / 2)) (fun _ => 0)).state.is_speaking
        = true := by
  rw [onMessage_word_eq]
  refine ⟨?_, ?_, rfl⟩ <;> simp [idleDemoState, isStart]

theorem word_in_idle_and_start_uniqueness_witness :
    idleDemoState.is_speaking = false ∧ idleDemoState.flushing_mode = false
    ∧ idleDemoState.has_output = true
    ∧ ((onMessage idleDemoState (.word "salut" 0) (fun _ => 0)).state.is_speaking = true
        ∧ (onMessage idleDemoState (.word "salut" 0) (fun _ => 0)).events
            = [ASREvent.textEv "salut"]) :=
  ⟨rfl, rfl, rfl,
    (word_in_idle_and_start_uniqueness idleDemoState "salut" 0 (fun _ => 0) .unknown).1
      rfl rfl rfl⟩

/-- C4. A Word during flushing cancels the flush, keeps the session speaking,
emits no END, and re-emits START exactly when speaking had been cleared. -/
theorem word_cancels_flushing :
    ∀ (s : MoshiState) (text : String) (t : ℝ) (clock : ℕ → ℝ),
      s.flushing_mode = true → s.packets_received < s.flushing_limit →
      s.has_output = true →
      ((onMessage s (.word text t) clock).state.flushing_mode = false
        ∧ (onMessage s (.word text t) clock).state.is_speaking = true
        ∧ (onMessage s (.word text t) clock).events.countP isEnd = 0
        ∧ (onMessage s (.word text t) clock).events.countP isStart
            = (if s.is_speaking = false then 1 else 0)) := by
  intro s text t clock hf hlt ho
  rw [onMessage_word_eq]
  cases hs : s.is_speaking <;> simp [hf, hs, ho, emitEvent, isStart, isEnd]

noncomputable def flushingDemoState : MoshiState :=
  { idleDemoState with is_speaking := true, flushing_mode := true,
                       flushing_limit := 12, packets_sent := 12,
                       packets_received := 3 }

theorem word_cancels_flushing_witness :
    flushingDemoState.flushing_mode = true
    ∧ flushingDemoState.packets_received < flushingDemoState.flushing_limit
    ∧ flushingDemoState.has_output = true
    ∧ ((onMessage flushingDemoState (.word "encore" 2) (fun _ => 0)).state.flushing_mode = false
        ∧ (onMessage flushingDemoState (.word "encore" 2) (fun _ => 0)).state.is_speaking = true
        ∧ (onMessage flushingDemoState (.word "encore" 2) (fun _ => 0)).events.countP isEnd = 0
        ∧ (onMessage flushingDemoState (.word "encore" 2) (fun _ => 0)).events.countP isStart
            = (if flushingDemoState.is_speaking = false then 1 else 0)) :=
  ⟨rfl, by norm_num [flushingDemoState, idleDemoState], rfl,
    word_cancels_flushing flushingDemoState "encore" 2 (fun _ => 0) rfl
      (by norm_num [flushingDemoState, idleDemoState]) rfl⟩

/-- C2 (amended). When the smoothed value exceeds pause_threshold on a Step
event while speaking: on flush entry the target is packets_sent +
silence_packets_count, exactly that many zero-sample frames are sent, and
END fires exactly when packets_received reaches the recorded target. -/
theorem flush_entry_and_end_timing :
    ∀ (s : MoshiState) (k : ℕ) (prs : List ℝ) (clock : ℕ → ℝ),
      3 ≤ prs.length → s.steps_to_wait = 0 → s.is_speaking = true →
      s.connected = true →
      s.pause_threshold < (s.pause_prediction.update FRAME_TIME_SEC (prs.getD 2 0)).value →
      ((s.flushing_mode = false →
          ((onMessage s (.step k prs) clock).state.flushing_limit
              = s.packets_sent + s.silence_packets_count
            ∧ (onMessage s (.step k prs) clock).frames.map SentFrame.pcm
              = List.replicate s.silence_packets_count
                  (List.replicate SAMPLES_PER_FRAME 0)
            ∧ (onMessage s (.step k prs) clock).state.packets_sent
              = s.packets_sent + s.silence_packets_count
            ∧ (onMessage s (.step k prs) clock).events.countP isEnd
              = (if s.packets_sent + s.silence_packets_count = s.packets_received + 1
                    ∧ s.has_output = true then 1 else 0)))
        ∧ (s.flushing_mode = true →
            ((onMessage s (.step k prs) clock).frames = []
              ∧ (onMessage s (.step k prs) clock).events.countP isEnd
                = (if s.flushing_limit = s.packets_received + 1
                      ∧ s.has_output = true then 1 else 0)
              ∧ (onMessage s (.step k prs) clock).state.flushing_mode
                = !(decide (s.flushing_limit = s.packets_received + 1))))) := by
  intro s k prs clock hlen hw hsp hc hth
  constructor
  · intro hnf
    rw [onMessage_step_enter s k prs clock hlen hw hsp hnf hc hth]
    by_cases heq : s.packets_sent + s.silence_packets_count = s.packets_received + 1
    · rw [flushCheck_flushing_done _ _ _ rfl (by simpa using heq)]
      cases ho : s.has_output <;>
        simp [heq, ho, emitEvent, isEnd, List.map_map, Function.comp,
          List.eq_replicate_iff]
    · rw [flushCheck_flushing_ne _ _ _ rfl (by simpa using heq)]
      simp [heq, List.map_map, Function.comp, List.eq_replicate_iff]
  · intro hf
    rw [onMessage_step_flushing s k prs clock hlen hw hsp hf hth]
    by_cases heq : s.flushing_limit = s.packets_received + 1
    · rw [flushCheck_flushing_done _ _ _ (by simpa using hf) (by simpa using heq)]
      cases ho : s.has_output <;> simp [heq, ho, emitEvent, isEnd]
    · rw [flushCheck_flushing_ne _ _ _ (by simpa using hf) (by simpa using heq)]
      simp [heq, hf]

noncomputable def speakingDemoState : MoshiState :=
  { idleDemoState with is_speaking := true }

theorem flush_entry_and_end_timing_witness :
    (3 ≤ ([0, 0, 1] : List ℝ).length) ∧ speakingDemoState.steps_to_wait = 0
    ∧ speakingDemoState.is_speaking = true ∧ speakingDemoState.connected = true
    ∧ speakingDemoState.pause_threshold
        < (speakingDemoState.pause_prediction.update FRAME_TIME_SEC
            (([0, 0, 1] : List ℝ).getD 2 0)).value
    ∧ ((onMessage speakingDemoState (.step 0 [0, 0, 1]) (fun _ => 0)).state.flushing_limit
          = speakingDemoState.packets_sent + speakingDemoState.silence_packets_count
        ∧ (onMessage speakingDemoState (.step 0 [0, 0, 1]) (fun _ => 0)).frames.map SentFrame.pcm
          = List.replicate speakingDemoState.silence_packets_count
              (List.replicate SAMPLES_PER_FRAME 0)
        ∧ (onMessage speakingDemoState (.step 0 [0, 0, 1]) (fun _ => 0)).state.packets_sent
          = speakingDemoState.packets_sent + speakingDemoState.silence_packets_count
        ∧ (onMessage speakingDemoState (.step 0 [0, 0, 1]) (fun _ => 0)).events.countP isEnd
          = (if speakingDemoState.packets_sent + speakingDemoState.silence_packets_count
                  = speakingDemoState.packets_received + 1
                ∧ speakingDemoState.has_output = true then 1 else 0)) :=
  ⟨by norm_num, rfl, rfl, rfl,
    by
      rw [show speakingDemoState.pause_prediction
            = ExponentialMovingAverage.mk 0.01 0.01 1 from rfl,
        show (([0, 0, 1] : List ℝ).getD 2 0) = 1 from rfl, update_default]
      show PAUSE_THRESHOLD < _
      unfold PAUSE_THRESHOLD
      norm_num,
    (flush_entry_and_end_timing speakingDemoState 0 [0, 0, 1] (fun _ => 0)
      (by norm_num) rfl rfl rfl
      (by
        rw [show speakingDemoState.pause_prediction
              = ExponentialMovingAverage.mk 0.01 0.01 1 from rfl,
          show (([0, 0, 1] : List ℝ).getD 2 0) = 1 from rfl, update_default]
        show PAUSE_THRESHOLD < _
        unfold PAUSE_THRESHOLD
        norm_num)).1 rfl⟩

/-- While already flushing with the EMA pinned at a value above threshold,
Step events carrying that same value only advance packets_received, as long
as the flush target has not been reached. -/
theorem runMessages_flushing_hold (k : ℕ) (clock : ℕ → ℝ) :
    ∀ (n : ℕ) (s : MoshiState),
      s.is_speaking = true → s.flushing_mode = true → s.steps_to_wait = 0 →
      s.pause_prediction.value = 1 → s.pause_threshold < 1 →
      (∀ j, j < n → s.flushing_limit ≠ s.packets_received + (j + 1)) →
      runMessages s (List.replicate n (.step k [0, 0, 1])) clock =
        ⟨{ s with packets_received := s.packets_received + n }, [], []⟩ := by
  intro n
  induction n with
  | zero => intro s _ _ _ _ _ _; simp [runMessages]
  | succ n ih =>
      intro s hsp hf hw hv hth hrange
      have hupd : s.pause_prediction.update FRAME_TIME_SEC (([0, 0, 1] : List ℝ).getD 2 0)
          = s.pause_prediction := by
        rw [show (([0, 0, 1] : List ℝ).getD 2 0) = 1 from rfl, ← hv, update_self]
      have hth' : s.pause_threshold
          < (s.pause_prediction.update FRAME_TIME_SEC (([0, 0, 1] : List ℝ).getD 2 0)).value := by
        rw [hupd, hv]; exact hth
      rw [List.replicate_succ, runMessages_cons,
        onMessage_step_flushing s k [0, 0, 1] clock (by norm_num) hw hsp hf hth',
        hupd,
        flushCheck_flushing_ne _ _ _ (by simpa using hf)
          (by simpa using hrange 0 (by omega))]
      rw [ih { s with packets_received := s.packets_received + 1 } hsp hf hw hv hth
        (by
          intro j hj
          show s.flushing_limit ≠ s.packets_received + 1 + (j + 1)
          have h2 := hrange (j + 1) (by omega)
          omega)]
      have h1 : s.packets_received + 1 + n = s.packets_received + (n + 1) := by omega
      dsimp only
      rw [h1]
      simp

/-- C2's flush-entry scenario with packets_sent ahead of packets_received. -/
noncomputable def c2DivergentState : MoshiState :=
  { idleDemoState with is_speaking := true, packets_sent := 5 }

/-- C2. Counterexample to the claim as stated: entering flushing at
packets_sent = 5, packets_received = 0, the target is 17, so after
packets_received has advanced by FLUSH_LENGTH = 12 beyond its value at flush
entry no END has been emitted and the session is still flushing. -/
theorem flush_end_timing_counterexample :
    (runMessages c2DivergentState (List.replicate 13 (.step 0 [0, 0, 1]))
        (fun _ => 0)).events.countP isEnd = 0
    ∧ (runMessages c2DivergentState (List.replicate 13 (.step 0 [0, 0, 1]))
        (fun _ => 0)).state.flushing_mode = true
    ∧ (runMessages c2DivergentState (List.replicate 13 (.step 0 [0, 0, 1]))
        (fun _ => 0)).state.packets_received = 13
    ∧ (runMessages c2DivergentState (List.replicate 13 (.step 0 [0, 0, 1]))
        (fun _ => 0)).state.flushing_limit = 17 := by
  have hth : c2DivergentState.pause_threshold
      < (c2DivergentState.pause_prediction.update FRAME_TIME_SEC
          (([0, 0, 1] : List ℝ).getD 2 0)).value := by
    rw [show c2DivergentState.pause_prediction
          = ExponentialMovingAverage.mk 0.01 0.01 1 from rfl,
      show (([0, 0, 1] : List ℝ).getD 2 0) = 1 from rfl, update_default]
    show PAUSE_THRESHOLD < _
    unfold PAUSE_THRESHOLD
    norm_num
  have hstep1 := onMessage_step_enter c2DivergentState 0 [0, 0, 1] (fun _ => 0)
    (by norm_num) rfl rfl rfl rfl hth
  rw [show (13 : ℕ) = 1 + 12 from rfl, List.replicate_add, List.replicate_one,
    List.singleton_append, runMessages_cons, hstep1,
    flushCheck_flushing_ne _ _ _ rfl (by norm_num [c2DivergentState, idleDemoState, FLUSH_LENGTH])]
  have hupd : c2DivergentState.pause_prediction.update FRAME_TIME_SEC
      (([0, 0, 1] : List ℝ).getD 2 0) = ExponentialMovingAverage.mk 0.01 0.01 1 := by
    rw [show c2DivergentState.pause_prediction
          = ExponentialMovingAverage.mk 0.01 0.01 1 from rfl,
      show (([0, 0, 1] : List ℝ).getD 2 0) = 1 from rfl]
    exact update_self (ExponentialMovingAverage.mk 0.01 0.01 1) FRAME_TIME_SEC
  rw [hupd]
  rw [runMessages_flushing_hold 0 (fun _ => 0) 12
    { c2DivergentState with
        packets_received := c2DivergentState.packets_received + 1,
        pause_prediction := ExponentialMovingAverage.mk 0.01 0.01 1,
        flushing_mode := true,
        flushing_limit := c2DivergentState.packets_sent + c2DivergentState.silence_packets_count,
        packets_sent := c2DivergentState.packets_sent + c2DivergentState.silence_packets_count }
    rfl rfl rfl rfl
    (by show PAUSE_THRESHOLD < (1 : ℝ); unfold PAUSE_THRESHOLD; norm_num)
    (by
      intro j hj
      show c2DivergentState.packets_sent + c2DivergentState.silence_packets_count
          ≠ c2DivergentState.packets_received + 1 + (j + 1)
      have hs : c2DivergentState.packets_sent = 5 := rfl
      have hr : c2DivergentState.packets_received = 0 := rfl
      have hcnt : c2DivergentState.silence_packets_count = 12 := rfl
      omega)]
  refine ⟨by simp [isEnd], rfl, ?_, ?_⟩ <;>
    norm_num [c2DivergentState, idleDemoState, FLUSH_LENGTH]

/-! ### KyutaiASRStep-level state (text_buffer, current_client_id) -/

structure KyutaiStepState where
  moshi : MoshiState
  text_buffer : List String
  current_client_id : Option String

/-- Inbound websocket events are handled entirely by MoshiASR.on_message,
which has no reference to the owning step: text_buffer is untouched. -/
noncomputable def stepOnWire (st : KyutaiStepState) (m : WireMessage) (clock : ℕ → ℝ) :
    KyutaiStepState × List ASREvent :=
  ({ st with moshi := (onMessage st.moshi m clock).state }, (onMessage st.moshi m clock).events)

noncomputable def stepRunWire (st : KyutaiStepState) (ms : List WireMessage) (clock : ℕ → ℝ) :
    KyutaiStepState × List ASREvent :=
  match ms with
  | [] => (st, [])
  | m :: rest =>
      let r := stepOnWire st m clock
      let r' := stepRunWire r.1 rest clock
      (r'.1, r.2 ++ r'.2)

theorem stepRunWire_eq_runMessages (ms : List WireMessage) :
    ∀ (st : KyutaiStepState) (clock : ℕ → ℝ),
      stepRunWire st ms clock =
        (⟨(runMessages st.moshi ms clock).state, st.text_buffer, st.current_client_id⟩,
          (runMessages st.moshi ms clock).events) := by
  induction ms with
  | nil => intro st clock; rfl
  | cons m rest ih =>
      intro st clock
      show (((stepRunWire { st with moshi := (onMessage st.moshi m clock).state } rest clock).1),
          (onMessage st.moshi m clock).events
            ++ (stepRunWire { st with moshi := (onMessage st.moshi m clock).state } rest clock).2)
        = _
      rw [ih { st with moshi := (onMessage st.moshi m clock).state } clock]
      rfl

/-- Every END event ever emitted carries only the literal reason string. -/
theorem onMessage_end_shape (s : MoshiState) (m : WireMessage) (clock : ℕ → ℝ)
    (e : ASREvent) (he : e ∈ (onMessage s m clock).events) (hend : isEnd e = true) :
    e = .endEv "pause_detected" := by
  cases e with
  | startEv r => simp [isEnd] at hend
  | textEv tx => simp [isEnd] at hend
  | endEv r =>
      suffices h : r = "pause_detected" by rw [h]
      cases m with
      | ready => simp [onMessage] at he
      | word text t =>
          rw [onMessage_word_eq] at he
          split_ifs at he <;> simp_all [emitEvent]
      | endWord t =>
          rcases flushCheck_mem_events _ _ _ _ he with h | h
          · simp at h
          · exact ASREvent.endEv.inj h
      | marker i =>
          rcases flushCheck_mem_events _ _ _ _ he with h | h
          · simp at h
          · exact ASREvent.endEv.inj h
      | unknown =>
          rcases flushCheck_mem_events _ _ _ _ he with h | h
          · simp at h
          · exact ASREvent.endEv.inj h
      | step k prs =>
          simp only [onMessage] at he
          split_ifs at he <;>
            first
              | exact absurd he (List.not_mem_nil _)
              | (rcases flushCheck_mem_events _ _ _ _ he with h | h
                 · (try split_ifs at h) <;> simp_all [emitEvent]
                 · exact ASREvent.endEv.inj h)

/-- C3 (amended). Wire events never touch the step's transcript buffer, an
END carries only the reason "pause_detected", and a Word emits its token
as a TEXT event. -/
theorem transcript_untouched_and_end_payload :
    ∀ (st : KyutaiStepState) (m : WireMessage) (clock : ℕ → ℝ) (text : String) (t : ℝ),
      ((stepOnWire st m clock).1.text_buffer = st.text_buffer)
      ∧ (∀ e ∈ (stepOnWire st m clock).2, isEnd e = true →
          ASREvent.payload e = EventData.reasonPayload "pause_detected")
      ∧ (st.moshi.has_output = true →
          ASREvent.textEv text ∈ (stepOnWire st (.word text t) clock).2) := by
  intro st m clock text t
  refine ⟨rfl, ?_, ?_⟩
  · intro e he hend
    rw [onMessage_end_shape st.moshi m clock e he hend]
    rfl
  · intro ho
    show ASREvent.textEv text ∈ (onMessage st.moshi (.word text t) clock).events
    rw [onMessage_word_eq]
    simp [ho]

theorem transcript_untouched_witness :
    (KyutaiStepState.mk idleDemoState [] none).moshi.has_output = true
    ∧ ASREvent.textEv "oui"
        ∈ (stepOnWire (KyutaiStepState.mk idleDemoState [] none)
            (.word "oui" 3) (fun _ => 0)).2 :=
  ⟨rfl, (transcript_untouched_and_end_payload
    (KyutaiStepState.mk idleDemoState [] none) .unknown (fun _ => 0) "oui" 3).2.2 rfl⟩

/-! Intermediate states of the end-to-end C3 scenario: ten warm-up Step
events, one Word, then two Step events with pause component 1. -/

noncomputable def c3s0 : MoshiState := { idleDemoState with steps_to_wait := 10 }

noncomputable def c3s1 : MoshiState :=
  { c3s0 with packets_received := c3s0.packets_received + 10,
              steps_to_wait := c3s0.steps_to_wait - 10 }

noncomputable def c3s2 : MoshiState :=
  { c3s1 with flushing_mode := false,
              pause_prediction := { c3s1.pause_prediction with value := 0 },
              last_word_time := 1 / 2, is_speaking := true }

noncomputable def c3s3 : MoshiState :=
  { c3s2 with packets_received := c3s2.packets_received + 1,
              pause_prediction :=
                c3s2.pause_prediction.update FRAME_TIME_SEC (([0, 0, 1] : List ℝ).getD 2 0),
              flushing_mode := true,
              flushing_limit := c3s2.packets_sent + c3s2.silence_packets_count,
              packets_sent := c3s2.packets_sent + c3s2.silence_packets_count }

/-- C3. Concrete run refuting the claim: a full segment (Word "bonjour",
then flush completion) ends with an END carrying only the reason string,
while the transcript buffer stays empty. -/
theorem transcript_and_end_payload_counterexample :
    (stepRunWire ⟨c3s0, [], none⟩
        (List.replicate 10 (WireMessage.step 0 [0, 0, 1])
          ++ [WireMessage.word "bonjour" (1 / 2), WireMessage.step 0 [0, 0, 1],
              WireMessage.step 0 [0, 0, 1]]) (fun _ => 0)).2
      = [ASREvent.textEv "bonjour", ASREvent.endEv "pause_detected"]
    ∧ (stepRunWire ⟨c3s0, [], none⟩
        (List.replicate 10 (WireMessage.step 0 [0, 0, 1])
          ++ [WireMessage.word "bonjour" (1 / 2), WireMessage.step 0 [0, 0, 1],
              WireMessage.step 0 [0, 0, 1]]) (fun _ => 0)).1.text_buffer = []
    ∧ ASREvent.payload (ASREvent.endEv "pause_detected")
      = EventData.reasonPayload "pause_detected" := by
  have hA : runMessages c3s0 (List.replicate 10 (WireMessage.step 0 [0, 0, 1])) (fun _ => 0)
      = ⟨c3s1, [], []⟩ := by
    rw [runMessages_warmup 0 [0, 0, 1] (fun _ => 0) (by norm_num) 10 c3s0 (by decide)]
    rfl
  have hB : onMessage c3s1 (.word "bonjour" (1 / 2)) (fun _ => 0)
      = ⟨c3s2, [ASREvent.textEv "bonjour"], []⟩ := by
    rw [onMessage_word_eq]
    rfl
  have hthC : c3s2.pause_threshold
      < (c3s2.pause_prediction.update FRAME_TIME_SEC (([0, 0, 1] : List ℝ).getD 2 0)).value := by
    rw [show c3s2.pause_prediction = ExponentialMovingAverage.mk 0.01 0.01 0 from rfl,
      show (([0, 0, 1] : List ℝ).getD 2 0) = 1 from rfl, update_default,
      show c3s2.pause_threshold = PAUSE_THRESHOLD from rfl]
    unfold PAUSE_THRESHOLD
    norm_num
  have hC : onMessage c3s2 (WireMessage.step 0 [0, 0, 1]) (fun _ => 0)
      = ⟨c3s3, [],
          (List.range c3s2.silence_packets_count).map
            (fun j => ⟨List.replicate SAMPLES_PER_FRAME 0, (fun (_ : ℕ) => (0:ℝ)) j⟩)⟩ := by
    rw [onMessage_step_enter c3s2 0 [0, 0, 1] (fun _ => 0) (by norm_num) rfl rfl rfl rfl hthC,
      flushCheck_flushing_ne _ _ _ rfl (by decide)]
    rfl
  have hthD : c3s3.pause_threshold
      < (c3s3.pause_prediction.update FRAME_TIME_SEC (([0, 0, 1] : List ℝ).getD 2 0)).value := by
    rw [show c3s3.pause_prediction
          = c3s2.pause_prediction.update FRAME_TIME_SEC (([0, 0, 1] : List ℝ).getD 2 0) from rfl,
      show c3s2.pause_prediction = ExponentialMovingAverage.mk 0.01 0.01 0 from rfl,
      show (([0, 0, 1] : List ℝ).getD 2 0) = 1 from rfl, update_default, update_default,
      show c3s3.pause_threshold = PAUSE_THRESHOLD from rfl]
    unfold PAUSE_THRESHOLD
    norm_num
  have hD : onMessage c3s3 (WireMessage.step 0 [0, 0, 1]) (fun _ => 0)
      = ⟨{ c3s3 with
            packets_received := c3s3.packets_received + 1,
            pause_prediction :=
              c3s3.pause_prediction.update FRAME_TIME_SEC (([0, 0, 1] : List ℝ).getD 2 0),
            is_speaking := false, flushing_mode := false },
          [ASREvent.endEv "pause_detected"], []⟩ := by
    rw [onMessage_step_flushing c3s3 0 [0, 0, 1] (fun _ => 0) (by norm_num) rfl rfl rfl hthD,
      flushCheck_flushing_done _ _ _ rfl (by decide)]
    rfl
  rw [stepRunWire_eq_runMessages]
  rw [runMessages_append, hA]
  dsimp only
  rw [runMessages_cons, hB]
  dsimp only
  rw [runMessages_cons, hC]
  dsimp only
  rw [runMessages_cons, hD]
  dsimp only
  rw [runMessages_nil]
  simp [ASREvent.payload]

/-- C5. One update blends with alpha = 1 - 2^(-dt/tau) picked by branch;
repeated updates toward a constant target are monotone on each side, never
overshoot it, and converge to it. -/
theorem ema_update_formula_and_convergence :
    ∀ (e : ExponentialMovingAverage) (dt v : ℝ),
      0 < dt → 0 < e.attack_time → 0 < e.release_time →
      ((e.value < v →
          (e.update dt v).value
            = (1 - alphaSpec dt e.attack_time) * e.value + alphaSpec dt e.attack_time * v)
        ∧ (¬ e.value < v →
          (e.update dt v).value
            = (1 - alphaSpec dt e.release_time) * e.value + alphaSpec dt e.release_time * v)
        ∧ (v ≤ e.value → ∀ n, v ≤ (iterEMA e dt v n).value
              ∧ (iterEMA e dt v (n + 1)).value ≤ (iterEMA e dt v n).value)
        ∧ (e.value ≤ v → ∀ n, (iterEMA e dt v n).value ≤ v
              ∧ (iterEMA e dt v n).value ≤ (iterEMA e dt v (n + 1)).value)
        ∧ Filter.Tendsto (fun n => (iterEMA e dt v n).value) Filter.atTop (nhds v)) := by
  intro e dt v hdt ha hr
  refine ⟨?_, ?_, iterEMA_above e dt v hdt hr, iterEMA_below e dt v hdt ha hr,
    iterEMA_tendsto e dt v hdt ha hr⟩
  · intro hlt
    unfold ExponentialMovingAverage.update
    rw [if_pos hlt, emaAlpha_eq_alphaSpec]
  · intro hge
    unfold ExponentialMovingAverage.update
    rw [if_neg hge, emaAlpha_eq_alphaSpec]

theorem ema_update_formula_and_convergence_witness :
    (0 : ℝ) < 1
    ∧ Filter.Tendsto
        (fun n => (iterEMA (ExponentialMovingAverage.mk 1 1 1) 1 0 n).value)
        Filter.atTop (nhds 0) :=
  ⟨by norm_num,
    (ema_update_formula_and_convergence ⟨1, 1, 1⟩ 1 0 (by norm_num) (by norm_num)
      (by norm_num)).2.2.2.2⟩

/-! ### PCM chunking (_process_audio_chunk, kyutai_asr_step.py lines 320-352)

The raw byte buffer is modelled as its decoded list of int16 sample values
(struct.unpack of the little-endian buffer); each sample is normalized by
dividing by 32767. -/

/-- The slicing loop: for i in range(0, len, SAMPLES_PER_FRAME). -/
def sliceFrames : List ℝ → List (List ℝ)
  | [] => []
  | x :: xs =>
      ((x :: xs).take SAMPLES_PER_FRAME) :: sliceFrames ((x :: xs).drop SAMPLES_PER_FRAME)
termination_by l => l.length
decreasing_by
  simp only [List.length_drop, List.length_cons, SAMPLES_PER_FRAME]
  omega

theorem sliceFrames_cons (x : ℝ) (xs : List ℝ) :
    sliceFrames (x :: xs)
      = ((x :: xs).take SAMPLES_PER_FRAME) :: sliceFrames ((x :: xs).drop SAMPLES_PER_FRAME) := by
  rw [sliceFrames]

theorem sliceFrames_ne_nil (l : List ℝ) (h : l ≠ []) :
    sliceFrames l = (l.take SAMPLES_PER_FRAME) :: sliceFrames (l.drop SAMPLES_PER_FRAME) := by
  obtain ⟨x, xs, rfl⟩ := List.exists_cons_of_ne_nil h
  exact sliceFrames_cons x xs

theorem sliceFrames_nil : sliceFrames ([] : List ℝ) = [] := by
  rw [sliceFrames]

/-- No sample is dropped by the slicing. -/
theorem sliceFrames_join (l : List ℝ) : (sliceFrames l).join = l := by
  induction l using sliceFrames.induct with
  | case1 => rw [sliceFrames_nil]; rfl
  | case2 x xs ih =>
      rw [sliceFrames_cons]
      simp [ih]

theorem sliceFrames_exact : ∀ (k : ℕ) (l : List ℝ), l.length = k * SAMPLES_PER_FRAME →
    (sliceFrames l).length = k ∧ ∀ c ∈ sliceFrames l, c.length = SAMPLES_PER_FRAME := by
  intro k
  induction k with
  | zero =>
      intro l hl
      have : l = [] := List.eq_nil_of_length_eq_zero (by simpa using hl)
      subst this
      simp [sliceFrames]
  | succ k ih =>
      intro l hl
      have hne : l ≠ [] := by
        intro hnil
        subst hnil
        simp only [List.length_nil, SAMPLES_PER_FRAME] at hl
        omega
      have hN : SAMPLES_PER_FRAME ≤ l.length := by
        rw [hl]
        simp only [SAMPLES_PER_FRAME]
        omega
      have hdrop : (l.drop SAMPLES_PER_FRAME).length = k * SAMPLES_PER_FRAME := by
        simp only [List.length_drop, hl]
        simp only [SAMPLES_PER_FRAME]
        omega
      obtain ⟨ihl, ihm⟩ := ih (l.drop SAMPLES_PER_FRAME) hdrop
      rw [sliceFrames_ne_nil l hne]
      refine ⟨by simp [ihl], ?_⟩
      intro c hc
      rcases List.mem_cons.mp hc with rfl | hc
      · simp [List.length_take]
        omega
      · exact ihm c hc

/-- A buffer that is not a whole number of frames yields exactly one short
frame, the last one, of length len mod SAMPLES_PER_FRAME. -/
theorem sliceFrames_short (l : List ℝ) (h : ¬ (SAMPLES_PER_FRAME ∣ l.length)) :
    (sliceFrames l).countP (fun c => decide (c.length < SAMPLES_PER_FRAME)) = 1
    ∧ sliceFrames l ≠ []
    ∧ ∃ c, (sliceFrames l).getLast? = some c
        ∧ c.length = l.length % SAMPLES_PER_FRAME := by
  induction l using sliceFrames.induct with
  | case1 => exact absurd (dvd_zero SAMPLES_PER_FRAME) (by simpa using h)
  | case2 x xs ih =>
      by_cases hlen : (x :: xs).length < SAMPLES_PER_FRAME
      · have hdrop : (x :: xs).drop SAMPLES_PER_FRAME = [] :=
          List.drop_eq_nil_of_le (le_of_lt hlen)
        have htake : (x :: xs).take SAMPLES_PER_FRAME = x :: xs :=
          List.take_of_length_le (le_of_lt hlen)
        rw [sliceFrames_cons, hdrop, htake, sliceFrames_nil]
        refine ⟨?_, by simp, x :: xs, ?_, ?_⟩
        · simp only [List.length_cons] at hlen
          simp [List.countP_cons, hlen]
        · rfl
        · exact (Nat.mod_eq_of_lt hlen).symm
      · push_neg at hlen
        have hnd : ¬ (SAMPLES_PER_FRAME ∣ ((x :: xs).drop SAMPLES_PER_FRAME).length) := by
          simp only [List.length_drop]
          intro hdvd
          apply h
          have := Nat.dvd_add hdvd (dvd_refl SAMPLES_PER_FRAME)
          rwa [Nat.sub_add_cancel hlen] at this
        obtain ⟨ihc, ihne, c, ihlast, ihlen⟩ := ih hnd
        rw [sliceFrames_cons]
        have htl : ((x :: xs).take SAMPLES_PER_FRAME).length = SAMPLES_PER_FRAME := by
          simp only [List.length_take, List.length_cons, SAMPLES_PER_FRAME] at hlen ⊢
          omega
        refine ⟨?_, by simp, c, ?_, ?_⟩
        · rw [List.countP_cons]
          simp [htl, ihc]
        · obtain ⟨y, ys, hys⟩ :=
            List.exists_cons_of_ne_nil ihne
          rw [hys] at ihlast ⊢
          rw [List.getLast?_cons_cons]
          exact ihlast
        · rw [ihlen]
          simp only [List.length_drop, List.length_cons, SAMPLES_PER_FRAME] at hlen ⊢
          omega

/-- The per-frame send loop of _process_audio_chunk: each frame is
timestamped base + index * FRAME_TIME_SEC, a warning is recorded for a
frame shorter than SAMPLES_PER_FRAME, and the frame is sent regardless. -/
noncomputable def sendChunksLoop (base : ℝ) :
    MoshiState → List (List ℝ) → ℕ → MoshiState × List SentFrame × ℕ
  | s, [], _ => (s, [], 0)
  | s, c :: rest, idx =>
      let w : ℕ := if c.length < SAMPLES_PER_FRAME then 1 else 0
      let r := sendAudio s c (base + (idx : ℝ) * FRAME_TIME_SEC)
      let r' := sendChunksLoop base r.1 rest (idx + 1)
      (r'.1, r.2 ++ r'.2.1, w + r'.2.2)

structure AudioOut where
  state : MoshiState
  frames : List SentFrame
  warnings : ℕ

/-- MoshiASR._process_audio_chunk on a decoded int16 sample list. -/
noncomputable def processAudioChunk (s : MoshiState) (samples : List ℤ) (base : ℝ) :
    AudioOut :=
  if s.connected = true ∧ s.stream_active = true then
    let audio_float := samples.map (fun v : ℤ => (v : ℝ) / 32767)
    let r := sendChunksLoop base s (sliceFrames audio_float) 0
    ⟨r.1, r.2.1, r.2.2⟩
  else ⟨s, [], 0⟩

theorem sendChunksLoop_eq (base : ℝ) :
    ∀ (chunks : List (List ℝ)) (s : MoshiState) (idx : ℕ), s.connected = true →
      sendChunksLoop base s chunks idx =
        ({ s with packets_sent := s.packets_sent + chunks.length },
          (List.range chunks.length).map
            (fun j => ⟨chunks.getD j [], base + ((idx + j : ℕ) : ℝ) * FRAME_TIME_SEC⟩),
          chunks.countP (fun c => decide (c.length < SAMPLES_PER_FRAME))) := by
  intro chunks
  induction chunks with
  | nil => intro s idx hc; simp [sendChunksLoop]
  | cons c rest ih =>
      intro s idx hc
      simp only [sendChunksLoop, sendAudio, if_pos hc]
      rw [ih { s with packets_sent := s.packets_sent + 1 } (idx + 1) hc]
      simp only [List.range_succ_eq_map, List.map_cons, List.map_map, Prod.mk.injEq,
        List.length_cons, List.countP_cons]
      refine ⟨by rw [show s.packets_sent + 1 + rest.length
          = s.packets_sent + (rest.length + 1) from by omega], ?_,
        by by_cases hlt : c.length < SAMPLES_PER_FRAME <;> simp [hlt, Nat.add_comm]⟩
      simp only [Nat.add_zero, List.getD_cons_zero, List.singleton_append, List.cons.injEq,
        true_and]
      apply List.map_congr_left
      intro j _
      simp only [Function.comp_apply, List.getD_cons_succ]
      congr 2
      push_cast
      ring

/-- C6. A connected, stream-active session chunks a PCM buffer into frames
of SAMPLES_PER_FRAME samples with timestamps spaced FRAME_TIME_SEC apart,
sends every sample (a short trailing frame is sent too, with one recorded
warning), and bumps packets_sent once per frame. -/
theorem pcm_chunking_behavior :
    ∀ (s : MoshiState) (samples : List ℤ) (base : ℝ),
      s.connected = true → s.stream_active = true →
      ((processAudioChunk s samples base).frames.map SentFrame.pcm
          = sliceFrames (samples.map (fun v : ℤ => (v : ℝ) / 32767))
        ∧ ((processAudioChunk s samples base).frames.map SentFrame.pcm).join
          = samples.map (fun v : ℤ => (v : ℝ) / 32767)
        ∧ (processAudioChunk s samples base).frames.map SentFrame.timestamp
          = (List.range (processAudioChunk s samples base).frames.length).map
              (fun j : ℕ => base + (j : ℝ) * FRAME_TIME_SEC)
        ∧ (processAudioChunk s samples base).state.packets_sent
          = s.packets_sent + (processAudioChunk s samples base).frames.length
        ∧ (∀ k, samples.length = k * SAMPLES_PER_FRAME →
            ((processAudioChunk s samples base).frames.length = k
              ∧ (processAudioChunk s samples base).warnings = 0))
        ∧ (¬ (SAMPLES_PER_FRAME ∣ samples.length) →
            ((processAudioChunk s samples base).warnings = 1
              ∧ (processAudioChunk s samples base).frames ≠ []
              ∧ ∃ f, ((processAudioChunk s samples base).frames).getLast? = some f
                  ∧ f.pcm.length = samples.length % SAMPLES_PER_FRAME))) := by
  intro s samples base hc hsa
  have hpa : processAudioChunk s samples base =
      ⟨{ s with packets_sent :=
            s.packets_sent + (sliceFrames (samples.map (fun v : ℤ => (v : ℝ) / 32767))).length },
        (List.range (sliceFrames (samples.map (fun v : ℤ => (v : ℝ) / 32767))).length).map
          (fun j => ⟨(sliceFrames (samples.map (fun v : ℤ => (v : ℝ) / 32767))).getD j [],
            base + ((0 + j : ℕ) : ℝ) * FRAME_TIME_SEC⟩),
        (sliceFrames (samples.map (fun v : ℤ => (v : ℝ) / 32767))).countP
          (fun c => decide (c.length < SAMPLES_PER_FRAME))⟩ := by
    unfold processAudioChunk
    rw [if_pos ⟨hc, hsa⟩]
    dsimp only
    rw [sendChunksLoop_eq base (sliceFrames (samples.map (fun v : ℤ => (v : ℝ) / 32767))) s 0 hc]
  set floats := samples.map (fun v : ℤ => (v : ℝ) / 32767) with hfl
  have hlenf : floats.length = samples.length := List.length_map _ _
  have hframes_pcm : (processAudioChunk s samples base).frames.map SentFrame.pcm
      = sliceFrames floats := by
    rw [hpa]
    dsimp only
    rw [List.map_map]
    apply List.ext_getElem
    · simp
    · intro i h1 h2
      simp only [List.getElem_map, List.getElem_range, Function.comp_apply]
      apply List.getD_eq_getElem
  have hlen_frames : (processAudioChunk s samples base).frames.length
      = (sliceFrames floats).length := by
    rw [hpa]; simp
  refine ⟨hframes_pcm, ?_, ?_, ?_, ?_, ?_⟩
  · rw [hframes_pcm, sliceFrames_join]
  · rw [hlen_frames, hpa]
    dsimp only
    rw [List.map_map]
    apply List.map_congr_left
    intro j _
    simp
  · rw [hlen_frames, hpa]
  · intro k hk
    have hk' : floats.length = k * SAMPLES_PER_FRAME := by rw [hlenf, hk]
    obtain ⟨hl, hm⟩ := sliceFrames_exact k floats hk'
    constructor
    · rw [hlen_frames, hl]
    · rw [hpa]
      dsimp only
      rw [List.countP_eq_zero]
      intro c hcmem
      simp [hm c hcmem]
  · intro hnd
    have hnd' : ¬ (SAMPLES_PER_FRAME ∣ floats.length) := by rwa [hlenf]
    obtain ⟨hcnt, hne, c, hlast, hclen⟩ := sliceFrames_short floats hnd'
    refine ⟨?_, ?_, ?_⟩
    · rw [hpa]
      dsimp only
      exact hcnt
    · intro hfr
      have := congrArg List.length hfr
      rw [hlen_frames] at this
      simp only [List.length_nil] at this
      exact hne (List.eq_nil_of_length_eq_zero this)
    · refine ⟨⟨c, base + (((0 : ℕ) + ((sliceFrames floats).length - 1) : ℕ) : ℝ)
          * FRAME_TIME_SEC⟩, ?_, by simpa [hlenf] using hclen⟩
      rw [hpa]
      dsimp only
      have hlpos : 0 < (sliceFrames floats).length := List.length_pos.mpr hne
      rw [List.getLast?_eq_getElem?] at hlast
      rw [List.getLast?_eq_getElem?]
      simp only [List.length_map, List.length_range]
      rw [List.getElem?_map]
      rw [List.getElem?_range (by omega : (sliceFrames floats).length - 1
        < (sliceFrames floats).length)]
      rw [Option.map_some']
      have hgetD : (sliceFrames floats).getD ((sliceFrames floats).length - 1) [] = c := by
        have := hlast
        rw [List.getD_eq_getElem?_getD, this]
        rfl
      rw [hgetD]

theorem pcm_chunking_behavior_witness :
    idleDemoState.connected = true ∧ idleDemoState.stream_active = true
    ∧ ¬ (SAMPLES_PER_FRAME ∣ ([3, -2] : List ℤ).length)
    ∧ ((processAudioChunk idleDemoState [3, -2] 0).warnings = 1
        ∧ (processAudioChunk idleDemoState [3, -2] 0).frames ≠ []
        ∧ ∃ f, ((processAudioChunk idleDemoState [3, -2] 0).frames).getLast? = some f
            ∧ f.pcm.length = ([3, -2] : List ℤ).length % SAMPLES_PER_FRAME) :=
  ⟨rfl, rfl, by decide,
    (pcm_chunking_behavior idleDemoState [3, -2] 0 rfl rfl).2.2.2.2.2 (by decide)⟩

/-! ### Session independence (C10)

KyutaiASRStep.init creates one fresh MoshiASR per step; every piece of
segmentation state is an instance attribute of that object, so two live
sessions are two disjoint MoshiState values and an event is applied to
exactly the state of the session it belongs to. -/

inductive SessionEvent
  | wire (m : WireMessage) (clock : ℕ → ℝ)
  | audio (samples : List ℤ) (base : ℝ)

noncomputable def applySessionEvent (s : MoshiState) : SessionEvent → MoshiState
  | .wire m clock => (onMessage s m clock).state
  | .audio samples base => (processAudioChunk s samples base).state

noncomputable def runSession (s : MoshiState) : List SessionEvent → MoshiState
  | [] => s
  | e :: rest => runSession (applySessionEvent s e) rest

structure TaggedEvent where
  toSecond : Bool
  ev : SessionEvent

noncomputable def stepPair (p : MoshiState × MoshiState) (e : TaggedEvent) :
    MoshiState × MoshiState :=
  if e.toSecond then (p.1, applySessionEvent p.2 e.ev)
  else (applySessionEvent p.1 e.ev, p.2)

noncomputable def runPair (p : MoshiState × MoshiState) :
    List TaggedEvent → MoshiState × MoshiState
  | [] => p
  | e :: rest => runPair (stepPair p e) rest

/-- C10. Two-run noninterference: after any interleaving, each session's
full state (counters, speaking/flushing flags, EMA value) equals the state
obtained by running that session's own events alone. -/
theorem session_noninterference :
    ∀ (evs : List TaggedEvent) (p : MoshiState × MoshiState),
      (runPair p evs).1
          = runSession p.1 ((evs.filter (fun e => !e.toSecond)).map TaggedEvent.ev)
        ∧ (runPair p evs).2
          = runSession p.2 ((evs.filter (fun e => e.toSecond)).map TaggedEvent.ev) := by
  intro evs
  induction evs with
  | nil => intro p; exact ⟨rfl, rfl⟩
  | cons e rest ih =>
      intro p
      obtain ⟨b, ev⟩ := e
      cases b
      · exact ih (applySessionEvent p.1 ev, p.2)
      · exact ih (p.1, applySessionEvent p.2 ev)

/-! ### Step mailboxes (pipeline_framework.py)

PipelineStep.__init__ creates input_queue and output_queue as
asyncio.Queue() with the default maxsize 0, which asyncio treats as
unbounded; Pipeline.send_message awaits put on the target step's
input_queue. asyncio's put never discards an item: it either appends, or
suspends the producer until space frees up on a bounded queue. The dropped
outcome below is never produced; it exists to state the spec's claim. -/

structure AsyncioQueue (α : Type) where
  maxsize : ℤ
  items : List α

def AsyncioQueue.isFull {α : Type} (q : AsyncioQueue α) : Bool :=
  if q.maxsize ≤ 0 then false else (q.maxsize ≤ (q.items.length : ℤ))

inductive PutOutcome (α : Type)
  | completed (q : AsyncioQueue α)
  | suspends
  | dropped

def AsyncioQueue.put {α : Type} (q : AsyncioQueue α) (a : α) : PutOutcome α :=
  if q.isFull then .suspends else .completed ⟨q.maxsize, q.items ++ [a]⟩

/-- PipelineStep.__init__: self.input_queue = asyncio.Queue(). -/
def newStepQueue (α : Type) : AsyncioQueue α := ⟨0, []⟩

/-- C7 (amended). Step mailboxes are unbounded; an enqueue always appends
the message and completes immediately: nothing is ever dropped and no
warning path exists, and on the unbounded queue the producer never blocks. -/
theorem mailbox_unbounded_append :
    ∀ (α : Type) (items : List α) (m : α),
      (AsyncioQueue.mk 0 items).put m
          = PutOutcome.completed (AsyncioQueue.mk 0 (items ++ [m]))
        ∧ (newStepQueue α).maxsize = 0 := by
  intro α items m
  exact ⟨rfl, rfl⟩

/-- C7. Counterexample to the claimed drop-on-overflow: a step mailbox
already holding five messages retains all of them plus the new one on
enqueue; the put outcome is completed, never dropped. -/
theorem mailbox_drop_counterexample :
    (AsyncioQueue.mk 0 (List.replicate 5 "m")).put "m"
        = PutOutcome.completed (AsyncioQueue.mk 0 (List.replicate 5 "m" ++ ["m"]))
      ∧ (AsyncioQueue.mk 0 (List.replicate 5 "m")).put "m"
        ≠ (PutOutcome.dropped : PutOutcome String)
      ∧ ((AsyncioQueue.mk 0 (List.replicate 5 "m" ++ ["m"])).items).length = 6 := by
  refine ⟨rfl, ?_, rfl⟩
  simp [AsyncioQueue.put, AsyncioQueue.isFull]

/-! ### Step class construction (C8)

PipelineStep.__init__(self, name, config=None) accepts only name and
config. Python ABCMeta raises TypeError before __init__ runs when abstract
methods remain unimplemented; otherwise an unexpected keyword argument to
__init__ raises TypeError. PipelineStep declares init, process_message and
cleanup abstract; KyutaiASRStep and BaseToolStep never define
process_message, while ChatterboxTTSStep defines all three. -/

structure StepClassDescr where
  abstract_methods : List String
  super_init_kwargs : List String

def pipelineStepInitParams : List String := ["name", "config"]

inductive ConstructOutcome
  | abstractTypeError (methods : List String)
  | unexpectedKeywordTypeError (kw : String)
  | constructed
deriving DecidableEq

def construct (c : StepClassDescr) : ConstructOutcome :=
  if c.abstract_methods ≠ [] then .abstractTypeError c.abstract_methods
  else
    match c.super_init_kwargs.filter (fun kw => !(pipelineStepInitParams.contains kw)) with
    | [] => .constructed
    | kw :: _ => .unexpectedKeywordTypeError kw

def isTypeError : ConstructOutcome → Bool
  | .constructed => false
  | _ => true

def KyutaiASRStepDescr : StepClassDescr := ⟨["process_message"], ["handler"]⟩

def ChatterboxTTSStepDescr : StepClassDescr := ⟨[], ["handler"]⟩

def BaseToolStepDescr : StepClassDescr :=
  ⟨["process_message", "_create_tool_definition", "_execute_tool"], ["handler"]⟩

/-- C8 (amended). All three shipped step classes fail to construct with a
TypeError, but only ChatterboxTTSStep fails on the unexpected handler
keyword; KyutaiASRStep and BaseToolStep fail the abstract-method check,
which Python performs before __init__ can pass handler along. -/
theorem step_construction_type_errors :
    isTypeError (construct KyutaiASRStepDescr) = true
    ∧ isTypeError (construct ChatterboxTTSStepDescr) = true
    ∧ isTypeError (construct BaseToolStepDescr) = true
    ∧ construct ChatterboxTTSStepDescr = .unexpectedKeywordTypeError "handler"
    ∧ construct KyutaiASRStepDescr = .abstractTypeError ["process_message"]
    ∧ construct BaseToolStepDescr
      = .abstractTypeError ["process_message", "_create_tool_definition", "_execute_tool"] :=
  ⟨rfl, rfl, rfl, rfl, rfl, rfl⟩

/-- C8. Counterexample to the claimed cause: KyutaiASRStep's TypeError is
the abstract-method instantiation error (process_message is never
implemented), not the unexpected handler keyword the claim attributes it to. -/
theorem step_construction_cause_counterexample :
    construct KyutaiASRStepDescr = .abstractTypeError ["process_message"]
    ∧ construct KyutaiASRStepDescr ≠ .unexpectedKeywordTypeError "handler" := by
  refine ⟨rfl, ?_⟩
  simp [construct, KyutaiASRStepDescr]

/-! ### The dead MessageType.INPUT reference (C9) -/

/-- The members of the MessageType enum (base_message.py lines 6-12). -/
def messageTypeMembers : List String :=
  ["DATA", "ERROR", "CONTROL", "TOOL_CALL", "TOOL_RESPONSE", "TOOL_REGISTRATION"]

/-- Attribute lookup on the enum; none models the raised AttributeError. -/
def messageTypeAttr (attr : String) : Option String :=
  if messageTypeMembers.contains attr then some attr else none

inductive PyData
  | bytesData (samples : List ℤ)
  | dictData (entries : List (String × String))
  | strData (s : String)

structure PyMessage where
  type : String
  data : Option PyData
  metadata : List (String × String)

inductive HandlerAction
  | logError
  | logWarning
  | logDebug
  | forwardAudio (samples : List ℤ)

structure ASRStepPyState where
  moshi : Option MoshiState
  text_buffer : List String
  current_client_id : Option String

/-- KyutaiASRStep._handle_input_message. Its first statement compares
message.type against MessageType.INPUT; the attribute lookup raises, the
surrounding try/except logs the exception and the handler returns. -/
noncomputable def handleInputMessage (st : ASRStepPyState) (msg : PyMessage) (base : ℝ) :
    ASRStepPyState × List HandlerAction :=
  match messageTypeAttr "INPUT" with
  | none => (st, [.logError])
  | some inputType =>
      if msg.type ≠ inputType then (st, [.logWarning])
      else
        match msg.data with
        | none => (st, [.logError])
        | some d =>
            let st1 := if msg.metadata ≠ [] then
                { st with current_client_id :=
                    (msg.metadata.find? (fun p => p.1 = "client_id")).map Prod.snd }
              else st
            match st1.moshi with
            | none => (st1, [.logError])
            | some ms =>
                match d with
                | .bytesData samples =>
                    ({ st1 with moshi := some (processAudioChunk ms samples base).state },
                      [.forwardAudio samples, .logDebug])
                | _ => (st1, [.logError])

/-- ChatterboxTTSStep.process_message: the same MessageType.INPUT lookup
raises; its except branch returns an ErrorMessage built from the exception
text and the step name. -/
def ttsProcessMessage (step_name : String) (msg : PyMessage) : Option PyMessage :=
  match messageTypeAttr "INPUT" with
  | none => some ⟨"ERROR",
      some (.dictData [("error", "AttributeError: INPUT"), ("step_name", step_name)]), []⟩
  | some inputType => if msg.type = inputType then none else none

/-- C9. The MessageType enum has no INPUT member, so for every message the
ASR input handler takes the exception path: it only logs, forwards no
audio, emits nothing, and leaves all state unchanged; the TTS
process_message hits the same dead reference on every message. -/
theorem input_reference_dead :
    ∀ (st : ASRStepPyState) (msg : PyMessage) (base : ℝ) (step_name : String),
      messageTypeAttr "INPUT" = none
      ∧ handleInputMessage st msg base = (st, [HandlerAction.logError])
      ∧ ttsProcessMessage step_name msg
          = some ⟨"ERROR",
              some (.dictData [("error", "AttributeError: INPUT"), ("step_name", step_name)]),
              []⟩ := by
  intro st msg base step_name
  exact ⟨rfl, rfl, rfl⟩

end Joshua

